import Mathlib

/-!
Verification development for the gt4py excerpt: the on-disk build cache with
content-hash validation (`src/gt4py/backend/cache.py`) and the GTIR upcasting
pass (`src/gtc/passes/gtir_upcaster.py`).

The Python sources are shallowly embedded: file I/O becomes an explicit
file-system state, a raised exception becomes `Option.none`, and pickled
metadata becomes an explicit sum of load outcomes.  Definitions follow the
source line by line; parts of the repository that are only imported by the
excerpt (the `gtir` node classes, `eve.NodeTranslator`, `gt4py.utils`,
`gt4py.config`) are modelled from the specification and marked as such.
-/

/-! ## Scalar dtypes (GTIR)

Modelled from the spec: the dtype domain with its total numeric-promotion
ordering ("int < float < double, narrower-width < wider-width of same kind");
the authoritative enum lives in `gtc.common.DataType`, outside the excerpt. -/

inductive DType
  | bool_
  | int8
  | int16
  | int32
  | int64
  | float32
  | float64
deriving DecidableEq, Repr

/-- Numeric value of a dtype in the promotion ordering (Python compares the
`IntEnum` values of `DataType`). -/
def DType.rank : DType → Nat
  | .bool_ => 0
  | .int8 => 1
  | .int16 => 2
  | .int32 => 3
  | .int64 => 4
  | .float32 => 5
  | .float64 => 6

/-! ## GTIR expression trees

Modelled from the spec: the `gtir` node classes are outside the excerpt.  The
node kinds the pass rewrites (binary operations, ternary operations,
native-function calls, parallel assignments) and the generic kinds it passes
through (literals, field accesses, casts) each carry a resolved scalar
`dtype`, per the pass precondition "all dtypes are resolved". -/

mutual

inductive Expr
  | literal (dtype : DType) (value : String)
  | fieldAccess (dtype : DType) (name : String)
  | cast (dtype : DType) (expr : Expr)
  | binaryOp (dtype : DType) (op : String) (left : Expr) (right : Expr)
  | ternaryOp (dtype : DType) (cond : Expr) (true_expr : Expr) (false_expr : Expr)
  | nativeFuncCall (dtype : DType) (func : String) (args : ExprList)
deriving DecidableEq, Repr

inductive ExprList
  | nil
  | cons (head : Expr) (tail : ExprList)
deriving DecidableEq, Repr

end

/-- The `dtype` attribute common to all GTIR expression nodes. -/
def Expr.dtype : Expr → DType
  | .literal d _ => d
  | .fieldAccess d _ => d
  | .cast d _ => d
  | .binaryOp d _ _ _ => d
  | .ternaryOp d _ _ _ => d
  | .nativeFuncCall d _ _ => d

/-- List of the `dtype`s of the expressions (`[e.dtype for e in exprs]`). -/
def ExprList.dtypes : ExprList → List DType
  | .nil => []
  | .cons e es => e.dtype :: es.dtypes

def ExprList.map (f : Expr → Expr) : ExprList → ExprList
  | .nil => .nil
  | .cons e es => .cons (f e) (es.map f)

/-- The target of a parallel assignment: a field access, carrying its dtype.
Modelled from the spec: in `gtir` the left-hand side of `ParAssignStmt` is a
`FieldAccess` node. -/
structure FieldAcc where
  dtype : DType
  name : String
deriving DecidableEq, Repr

/-- A statement of a stencil body.  Modelled from the spec: the parallel
assignment statement `(left, right)` is the statement kind the pass rewrites. -/
inductive Stmt
  | parAssign (left : FieldAcc) (right : Expr)
deriving DecidableEq, Repr

/-! ## The upcasting pass (`gtir_upcaster.py`) -/

/-- Embeds `_upcast_node`: wrap `node` in a `Cast` to `target_dtype` unless it already
has that dtype (`node if node.dtype == target_dtype else gtir.Cast(...)`). -/
def _upcast_node (target_dtype : DType) (node : Expr) : Expr :=
  if node.dtype = target_dtype then node else Expr.cast target_dtype node

/-- The Python builtin max over a list: raises `ValueError` on an empty list (here
`none`), otherwise folds keeping the current maximum, replacing it only when a
later element is strictly greater. -/
def listMax : List DType → Option DType
  | [] => none
  | d :: ds => some (ds.foldl (fun a b => if a.rank < b.rank then b else a) d)

/-- Embeds `_upcast_nodes`: `target_dtype = max([e.dtype for e in exprs])` (a raise on
an empty argument tuple), then `_upcast_node target_dtype` mapped over the
arguments. -/
def _upcast_nodes (exprs : ExprList) : Option ExprList :=
  match listMax exprs.dtypes with
  | none => none
  | some target_dtype => some (exprs.map (_upcast_node target_dtype))

/-- Embeds `_update_node` as called by `visit_BinaryOp` with
the children left and right: copy the node with the new children if any
child changed (pydantic `!=` is structural equality), else return the node
itself. -/
def _update_node_binaryOp (node : Expr) (left right : Expr) : Expr :=
  match node with
  | .binaryOp d op l r =>
      if l ≠ left ∨ r ≠ right then .binaryOp d op left right else .binaryOp d op l r
  | n => n

/-- Embeds `_update_node` as called by `visit_TernaryOp` with
the children true_expr, false_expr and cond. -/
def _update_node_ternaryOp (node : Expr) (cond true_expr false_expr : Expr) : Expr :=
  match node with
  | .ternaryOp d c t f =>
      if c ≠ cond ∨ t ≠ true_expr ∨ f ≠ false_expr then .ternaryOp d cond true_expr false_expr
      else .ternaryOp d c t f
  | n => n

/-- Embeds `_update_node` as called by `visit_NativeFuncCall` with the new args. -/
def _update_node_nativeFuncCall (node : Expr) (args : ExprList) : Expr :=
  match node with
  | .nativeFuncCall d fn a =>
      if a ≠ args then .nativeFuncCall d fn args else .nativeFuncCall d fn a
  | n => n

/-- Embeds `_update_node` as called by `visit_ParAssignStmt` with the new right. -/
def _update_node_parAssign (node : Stmt) (right : Expr) : Stmt :=
  match node with
  | .parAssign l r => if r ≠ right then .parAssign l right else .parAssign l r

mutual

/-- The dispatch of `_GTIRUpcasting.visit` over expression nodes.  The
`binaryOp`, `ternaryOp` and `nativeFuncCall` arms embed `visit_BinaryOp`,
`visit_TernaryOp` and `visit_NativeFuncCall`; the `literal`, `fieldAccess` and
`cast` arms are modelled from the generic rule of the spec for all other node kinds
(recursively visit children, rebuild only if a child changed — the
`eve.NodeTranslator` fallback is outside the excerpt).  A raised exception is
`none` and propagates. -/
def visit : Expr → Option Expr
  | .literal d v => some (.literal d v)
  | .fieldAccess d n => some (.fieldAccess d n)
  | .cast d e =>
      match visit e with
      | none => none
      | some e1 =>
          some (if e ≠ e1 then .cast d e1 else .cast d e)
  | .binaryOp d op l r =>
      match visit l, visit r with
      | some l1, some r1 =>
          match _upcast_nodes (.cons l1 (.cons r1 .nil)) with
          | some (.cons left (.cons right .nil)) =>
              some (_update_node_binaryOp (.binaryOp d op l r) left right)
          | _ => none
      | _, _ => none
  | .ternaryOp d c t f =>
      match visit t, visit f, visit c with
      | some t1, some f1, some c1 =>
          match _upcast_nodes (.cons t1 (.cons f1 .nil)) with
          | some (.cons true_expr (.cons false_expr .nil)) =>
              some (_update_node_ternaryOp (.ternaryOp d c t f) c1 true_expr false_expr)
          | _ => none
      | _, _, _ => none
  | .nativeFuncCall d fn args =>
      match visit_list args with
      | none => none
      | some args1 =>
          match _upcast_nodes args1 with
          | none => none
          | some args2 => some (_update_node_nativeFuncCall (.nativeFuncCall d fn args) args2)

/-- Visiting a list of nodes (`self.visit(node.args)`): each element is
visited; a raise in any element propagates. -/
def visit_list : ExprList → Option ExprList
  | .nil => some .nil
  | .cons e es =>
      match visit e, visit_list es with
      | some e1, some es1 => some (.cons e1 es1)
      | _, _ => none

end

/-- Embeds `_GTIRUpcasting.visit_ParAssignStmt`: visit the right-hand side, coerce it
to `node.left.dtype` with `_upcast_node`, and rebuild through `_update_node`;
the left-hand side is neither visited nor cast. -/
def visit_ParAssignStmt : Stmt → Option Stmt
  | .parAssign l r =>
      match visit r with
      | none => none
      | some r1 => some (_update_node_parAssign (.parAssign l r) (_upcast_node l.dtype r1))

/-- Visiting the list of statements of a stencil body (generic traversal). -/
def visit_stmts : List Stmt → Option (List Stmt)
  | [] => some []
  | s :: ss =>
      match visit_ParAssignStmt s, visit_stmts ss with
      | some s1, some ss1 => some (s1 :: ss1)
      | _, _ => none

/-- Embeds `upcast(node)`: run `_GTIRUpcasting` over the stencil.  The stencil is
modelled from the spec as its list of parallel-assignment statements (the
surrounding `Stencil`/vertical-loop structure is generic pass-through). -/
def upcast (stencil : List Stmt) : Option (List Stmt) :=
  visit_stmts stencil

/-! ## The build cache (`gt4py/backend/cache.py`)

File I/O is embedded as an explicit file-system state: reading a text file
yields `Option String` (`none` = the `open`/`read` raised), and the pickled
metadata file is a sum of load outcomes.  A raised exception in a function
without a `try` block is `Option.none` on its result. -/

/-- A Python value stored in a cache-info mapping.  Strings and integers
suffice for the fields the cache reads and writes; `==` across the two kinds
is `False`, never an error, as in Python. -/
inductive PyVal
  | str (s : String)
  | int (n : Int)
deriving DecidableEq, Repr

/-- Python `==` on stored values. -/
def pyEq (a b : PyVal) : Bool :=
  decide (a = b)

/-- A cache-info mapping, as a key/value list where a later binding overrides
an earlier one (the semantics of a Python dict literal ending in **extra). -/
abbrev CacheDict : Type :=
  List (String × PyVal)

/-- Dictionary/attribute lookup: the last binding of a key wins. -/
def dlookup : CacheDict → String → Option PyVal
  | [], _ => none
  | (k1, v) :: rest, k =>
      match dlookup rest k with
      | some w => some w
      | none => if k1 = k then some v else none

/-- The outcome of `pickle.load` on the metadata file. -/
inductive MetaFile
  | absent
  | corrupt
  | dictVal (d : CacheDict)
  | nonDict
deriving DecidableEq, Repr

/-- The file-system state seen by the cache: text files (the generated module
sources) addressed by path, metadata files addressed by path, and whether the
next metadata write raises. -/
structure FileSys where
  textFiles : String → Option String
  infoFiles : String → MetaFile
  writeFails : Bool

/-- Embeds `StencilID`: qualified name plus version (modelled from the StencilIdentity of the spec; the class itself lives outside the excerpt). -/
structure StencilID where
  qualified_name : String
  version : String
deriving DecidableEq, Repr

/-- Modelled from the spec: `gt4py.__version__`, an opaque version string. -/
def gt_version : String :=
  "1.0.dev"

/-- Modelled from the spec: `gt_utils.slugify`, a deterministic sanitisation
of the backend id used as a path segment. -/
def slugify (s : String) : String :=
  String.mk (s.data.map (fun c => if c.isAlphanum then c else Char.ofNat 95))

/-- Modelled from the spec: `gt_utils.shash`, the ContentHasher — a
deterministic, stable content hash of source text.  The cache treats the
digest as opaque; a simple rolling hash over the characters stands in for the
real digest. -/
def shash (s : String) : Nat :=
  s.data.foldl (fun a c => (a * 31 + c.toNat) % 1000000007) 7

/-- Splitting a qualified name on the dot separator, as
`stencil_id.qualified_name.split(".")` does. -/
def splitDotAux : List Char → List Char → List String
  | [], acc => [String.mk acc.reverse]
  | c :: cs, acc =>
      if c = Char.ofNat 46 then String.mk acc.reverse :: splitDotAux cs []
      else splitDotAux cs (c :: acc)

def split_on_dot (s : String) : List String :=
  splitDotAux s.data []

/-- Modelled from the spec: the configured cache root joined with the cache
directory name and the runtime fingerprint segment
(`gt_config.cache_settings`, `sys.version_info`). -/
def cache_root_fingerprint : String :=
  ".gt_cache/py38_1013"

/-- Embeds `get_stencil_class_name`: last segment of the qualified name, `"__"`, the
version. -/
def get_stencil_class_name (stencil_id : StencilID) : String :=
  let components := split_on_dot stencil_id.qualified_name
  (components.getLastD "") ++ "__" ++ stencil_id.version

/-- Embeds `get_stencil_module_name` (unqualified form): `"m_"` + class name. -/
def get_stencil_module_name (stencil_id : StencilID) : String :=
  "m_" ++ get_stencil_class_name stencil_id

/-- Embeds `get_base_path`: cache root / fingerprint / slugified backend id.  The
directory-creation side effect is stateless here. -/
def get_base_path (backend_id : String) : String :=
  cache_root_fingerprint ++ "/" ++ slugify backend_id

/-- Embeds `get_stencil_package_path`: base path joined with all qualified-name
segments but the last. -/
def get_stencil_package_path (backend_id : String) (stencil_id : StencilID) : String :=
  let components := split_on_dot stencil_id.qualified_name
  (components.dropLast).foldl (fun p c => p ++ "/" ++ c) (get_base_path backend_id)

/-- Embeds `get_stencil_module_path`: package path / module name + `".py"`. -/
def get_stencil_module_path (backend_id : String) (stencil_id : StencilID) : String :=
  get_stencil_package_path backend_id stencil_id ++ "/" ++
    get_stencil_module_name stencil_id ++ ".py"

/-- Embeds `get_cache_info_path`: the module path with `".py"` replaced by
`".cacheinfo"`. -/
def get_cache_info_path (backend_id : String) (stencil_id : StencilID) : String :=
  let modpath := (get_stencil_module_path backend_id stencil_id).data
  String.mk (modpath.take (modpath.length - 3)) ++ ".cacheinfo"

/-- Embeds `generate_cache_info`: read the module file (a failure propagates — no
`try` here), hash it, and build the info dict; `**extra_cache_info` is applied
after the standard fields, so its bindings override. -/
def generate_cache_info (fs : FileSys) (backend_id : String) (stencil_id : StencilID)
    (extra_cache_info : CacheDict) : Option CacheDict :=
  match fs.textFiles (get_stencil_module_path backend_id stencil_id) with
  | none => none
  | some source =>
      some ([("gt4py_version", PyVal.str gt_version),
             ("backend", PyVal.str backend_id),
             ("stencil_name", PyVal.str stencil_id.qualified_name),
             ("stencil_version", PyVal.str stencil_id.version),
             ("module_shash", PyVal.int (shash source))] ++ extra_cache_info)

/-- Embeds `update_cache`: generate the info dict (a raise propagates), then pickle
it to the cache-info path (a raise while writing propagates); on success the
metadata file is wholly replaced. -/
def update_cache (fs : FileSys) (backend_id : String) (stencil_id : StencilID)
    (extra_cache_info : CacheDict) : Option FileSys :=
  match generate_cache_info fs backend_id stencil_id extra_cache_info with
  | none => none
  | some cache_info =>
      if fs.writeFails then none
      else
        some { fs with
          infoFiles := fun p =>
            if p = get_cache_info_path backend_id stencil_id then MetaFile.dictVal cache_info
            else fs.infoFiles p }

/-- Embeds `validate_cache_info`: inside one `try`, turn the dict into attributes,
read and hash the current module file, and compare the four fields; any raise
(unreadable module file, missing field) yields `False`.  Comparisons are
Python `==`, so a type mismatch is `False`, not an error. -/
def validate_cache_info (fs : FileSys) (backend_id : String) (stencil_id : StencilID)
    (cache_info : CacheDict) : Bool :=
  match fs.textFiles (get_stencil_module_path backend_id stencil_id) with
  | none => false
  | some source =>
      let module_shash := shash source
      match dlookup cache_info "backend" with
      | none => false
      | some b =>
          if pyEq b (PyVal.str backend_id) then
            match dlookup cache_info "stencil_name" with
            | none => false
            | some n =>
                if pyEq n (PyVal.str stencil_id.qualified_name) then
                  match dlookup cache_info "stencil_version" with
                  | none => false
                  | some v =>
                      if pyEq v (PyVal.str stencil_id.version) then
                        match dlookup cache_info "module_shash" with
                        | none => false
                        | some h => pyEq h (PyVal.int module_shash)
                      else false
                else false
          else false

/-- Embeds `check_cache`: inside one `try`, unpickle the metadata file, assert it is
a `dict`, and delegate to `validate_cache_info`; any raise (missing,
unreadable or corrupt file, failed assertion) yields `False`. -/
def check_cache (fs : FileSys) (backend_id : String) (stencil_id : StencilID) : Bool :=
  match fs.infoFiles (get_cache_info_path backend_id stencil_id) with
  | MetaFile.absent => false
  | MetaFile.corrupt => false
  | MetaFile.nonDict => false
  | MetaFile.dictVal cache_info => validate_cache_info fs backend_id stencil_id cache_info

/-! ## Lemmas about the upcasting pass -/

/-- The Python max of the two-element dtype list built by the binary and
ternary visitors. -/
def dmax (a b : DType) : DType :=
  if a.rank < b.rank then b else a

theorem dmax_self (d : DType) : dmax d d = d := by
  simp [dmax]

theorem _upcast_nodes_pair (a b : Expr) :
    _upcast_nodes (.cons a (.cons b .nil)) =
      some (.cons (_upcast_node (dmax a.dtype b.dtype) a)
        (.cons (_upcast_node (dmax a.dtype b.dtype) b) .nil)) := by
  rfl

theorem _upcast_node_dtype (t : DType) (e : Expr) : (_upcast_node t e).dtype = t := by
  unfold _upcast_node
  split
  · assumption
  · rfl

theorem _upcast_node_of_dtype_eq (t : DType) (e : Expr) (h : e.dtype = t) :
    _upcast_node t e = e := by
  unfold _upcast_node
  rw [h]
  simp

theorem _update_node_binaryOp_eq (d : DType) (op : String) (l r left right : Expr) :
    _update_node_binaryOp (.binaryOp d op l r) left right = .binaryOp d op left right := by
  by_cases h1 : l = left <;> by_cases h2 : r = right <;>
    simp [_update_node_binaryOp, h1, h2]

theorem _update_node_ternaryOp_eq (d : DType) (c t f cond true_expr false_expr : Expr) :
    _update_node_ternaryOp (.ternaryOp d c t f) cond true_expr false_expr =
      .ternaryOp d cond true_expr false_expr := by
  by_cases h1 : c = cond <;> by_cases h2 : t = true_expr <;> by_cases h3 : f = false_expr <;>
    simp [_update_node_ternaryOp, h1, h2, h3]

theorem _update_node_nativeFuncCall_eq (d : DType) (fn : String) (a args : ExprList) :
    _update_node_nativeFuncCall (.nativeFuncCall d fn a) args = .nativeFuncCall d fn args := by
  by_cases h1 : a = args <;> simp [_update_node_nativeFuncCall, h1]

theorem _update_node_parAssign_eq (l : FieldAcc) (r right : Expr) :
    _update_node_parAssign (.parAssign l r) right = .parAssign l right := by
  by_cases h1 : r = right <;> simp [_update_node_parAssign, h1]

/-- Visiting preserves the dtype attribute of the node: every rewrite arm
either keeps the node or rebuilds it with its own dtype. -/
theorem visit_dtype (e e1 : Expr) (h : visit e = some e1) : e1.dtype = e.dtype := by
  cases e with
  | literal d v =>
      simp only [visit, Option.some.injEq] at h
      rw [← h]
  | fieldAccess d n =>
      simp only [visit, Option.some.injEq] at h
      rw [← h]
  | cast d x =>
      simp only [visit] at h
      cases hx : visit x with
      | none => rw [hx] at h; simp at h
      | some x1 =>
          rw [hx] at h
          simp only [Option.some.injEq] at h
          rw [← h]
          split <;> rfl
  | binaryOp d op l r =>
      simp only [visit] at h
      cases hl : visit l with
      | none => rw [hl] at h; simp at h
      | some l1 =>
          cases hr : visit r with
          | none => rw [hl, hr] at h; simp at h
          | some r1 =>
              rw [hl, hr] at h
              simp only [_upcast_nodes_pair, _update_node_binaryOp_eq,
                Option.some.injEq] at h
              rw [← h]
              rfl
  | ternaryOp d c t f =>
      simp only [visit] at h
      cases ht : visit t with
      | none => rw [ht] at h; simp at h
      | some t1 =>
          cases hf : visit f with
          | none => rw [ht, hf] at h; simp at h
          | some f1 =>
              cases hc : visit c with
              | none => rw [ht, hf, hc] at h; simp at h
              | some c1 =>
                  rw [ht, hf, hc] at h
                  simp only [_upcast_nodes_pair, _update_node_ternaryOp_eq,
                    Option.some.injEq] at h
                  rw [← h]
                  rfl
  | nativeFuncCall d fn args =>
      simp only [visit] at h
      cases ha : visit_list args with
      | none => rw [ha] at h; simp at h
      | some args1 =>
          rw [ha] at h
          simp only [] at h
          cases hu : _upcast_nodes args1 with
          | none => rw [hu] at h; simp at h
          | some args2 =>
              rw [hu] at h
              simp only [_update_node_nativeFuncCall_eq, Option.some.injEq] at h
              rw [← h]
              rfl

/-- A node already at its own fixpoint of `visit` stays a fixpoint after being
wrapped by `_upcast_node`: either nothing is wrapped, or the wrapping `Cast` is
passed through unchanged by the generic rule. -/
theorem visit_fix_upcast (t : DType) (x : Expr) (h : visit x = some x) :
    visit (_upcast_node t x) = some (_upcast_node t x) := by
  unfold _upcast_node
  split
  · exact h
  · simp only [visit]
    rw [h]
    simp

theorem dtypes_map_upcast (t : DType) :
    ∀ xs : ExprList, (xs.map (_upcast_node t)).dtypes = xs.dtypes.map (fun _ => t)
  | .nil => rfl
  | .cons x xs => by
      simp only [ExprList.map, ExprList.dtypes, List.map_cons, _upcast_node_dtype,
        dtypes_map_upcast t xs]

theorem foldl_max_const (t : DType) :
    ∀ ds : List DType, (∀ x ∈ ds, x = t) →
      ds.foldl (fun a b => if a.rank < b.rank then b else a) t = t
  | [], _ => rfl
  | d :: ds, hd => by
      have h1 : d = t := hd d (by simp)
      subst h1
      simp only [List.foldl]
      rw [if_neg (lt_irrefl _)]
      exact foldl_max_const d ds (fun x hx => hd x (by simp [hx]))

theorem listMax_all_eq (t : DType) :
    ∀ l : List DType, (∀ x ∈ l, x = t) → l ≠ [] → listMax l = some t
  | [], _, hne => absurd rfl hne
  | d :: ds, hall, _ => by
      have h1 : d = t := hall d (by simp)
      subst h1
      simp only [listMax, Option.some.injEq]
      exact foldl_max_const d ds (fun x hx => hall x (by simp [hx]))

theorem map_upcast_idem (t : DType) :
    ∀ xs : ExprList, (xs.map (_upcast_node t)).map (_upcast_node t) = xs.map (_upcast_node t)
  | .nil => rfl
  | .cons x xs => by
      simp only [ExprList.map]
      rw [_upcast_node_of_dtype_eq t (_upcast_node t x) (_upcast_node_dtype t x),
        map_upcast_idem t xs]

/-- Fixpoint lists stay fixpoints after elementwise `_upcast_node`. -/
theorem visit_list_map_upcast (t : DType) :
    ∀ xs : ExprList, visit_list xs = some xs →
      visit_list (xs.map (_upcast_node t)) = some (xs.map (_upcast_node t))
  | .nil, _ => by simp [ExprList.map, visit_list]
  | .cons x xs, h => by
      simp only [visit_list] at h
      cases hx : visit x with
      | none => rw [hx] at h; simp at h
      | some x1 =>
          cases hxs : visit_list xs with
          | none => rw [hx, hxs] at h; simp at h
          | some xs1 =>
              rw [hx, hxs] at h
              simp only [Option.some.injEq, ExprList.cons.injEq] at h
              obtain ⟨h1, h2⟩ := h
              rw [h1] at hx
              rw [h2] at hxs
              simp only [ExprList.map, visit_list]
              rw [visit_fix_upcast t x hx, visit_list_map_upcast t xs hxs]

mutual

/-- The image of `visit` is a set of fixpoints: a second visit of an already
rewritten expression changes nothing. -/
theorem visit_idem : ∀ (e e1 : Expr), visit e = some e1 → visit e1 = some e1
  | .literal d v, e1, h => by
      simp only [visit, Option.some.injEq] at h
      rw [← h]
      rfl
  | .fieldAccess d n, e1, h => by
      simp only [visit, Option.some.injEq] at h
      rw [← h]
      rfl
  | .cast d x, e1, h => by
      simp only [visit] at h
      cases hx : visit x with
      | none => rw [hx] at h; simp at h
      | some x1 =>
          rw [hx] at h
          simp only [Option.some.injEq] at h
          have hx1 : visit x1 = some x1 := visit_idem x x1 hx
          have he1 : e1 = .cast d x1 := by
            rw [← h]
            split
            · rfl
            · rename_i hne
              push_neg at hne
              rw [hne]
          subst he1
          simp only [visit]
          rw [hx1]
          simp
  | .binaryOp d op l r, e1, h => by
      simp only [visit] at h
      cases hl : visit l with
      | none => rw [hl] at h; simp at h
      | some l1 =>
          cases hr : visit r with
          | none => rw [hl, hr] at h; simp at h
          | some r1 =>
              rw [hl, hr] at h
              simp only [_upcast_nodes_pair, _update_node_binaryOp_eq, Option.some.injEq] at h
              have hl1 : visit l1 = some l1 := visit_idem l l1 hl
              have hr1 : visit r1 = some r1 := visit_idem r r1 hr
              rw [← h]
              simp only [visit]
              rw [visit_fix_upcast (dmax l1.dtype r1.dtype) l1 hl1,
                visit_fix_upcast (dmax l1.dtype r1.dtype) r1 hr1]
              simp only [_upcast_nodes_pair, _upcast_node_dtype, dmax_self]
              rw [_upcast_node_of_dtype_eq _ _ (_upcast_node_dtype (dmax l1.dtype r1.dtype) l1),
                _upcast_node_of_dtype_eq _ _ (_upcast_node_dtype (dmax l1.dtype r1.dtype) r1),
                _update_node_binaryOp_eq]
  | .ternaryOp d c t f, e1, h => by
      simp only [visit] at h
      cases ht : visit t with
      | none => rw [ht] at h; simp at h
      | some t1 =>
          cases hf : visit f with
          | none => rw [ht, hf] at h; simp at h
          | some f1 =>
              cases hc : visit c with
              | none => rw [ht, hf, hc] at h; simp at h
              | some c1 =>
                  rw [ht, hf, hc] at h
                  simp only [_upcast_nodes_pair, _update_node_ternaryOp_eq,
                    Option.some.injEq] at h
                  have ht1 : visit t1 = some t1 := visit_idem t t1 ht
                  have hf1 : visit f1 = some f1 := visit_idem f f1 hf
                  have hc1 : visit c1 = some c1 := visit_idem c c1 hc
                  rw [← h]
                  simp only [visit]
                  rw [visit_fix_upcast (dmax t1.dtype f1.dtype) t1 ht1,
                    visit_fix_upcast (dmax t1.dtype f1.dtype) f1 hf1, hc1]
                  simp only [_upcast_nodes_pair, _upcast_node_dtype, dmax_self]
                  rw [_upcast_node_of_dtype_eq _ _
                      (_upcast_node_dtype (dmax t1.dtype f1.dtype) t1),
                    _upcast_node_of_dtype_eq _ _
                      (_upcast_node_dtype (dmax t1.dtype f1.dtype) f1),
                    _update_node_ternaryOp_eq]
  | .nativeFuncCall d fn args, e1, h => by
      simp only [visit] at h
      cases ha : visit_list args with
      | none => rw [ha] at h; simp at h
      | some args1 =>
          rw [ha] at h
          simp only [] at h
          cases hu : _upcast_nodes args1 with
          | none => rw [hu] at h; simp at h
          | some args2 =>
              rw [hu] at h
              simp only [_update_node_nativeFuncCall_eq, Option.some.injEq] at h
              have ha1 : visit_list args1 = some args1 := visit_list_idem args args1 ha
              unfold _upcast_nodes at hu
              cases hm : listMax args1.dtypes with
              | none => rw [hm] at hu; simp at hu
              | some m =>
                  rw [hm] at hu
                  simp only [Option.some.injEq] at hu
                  rw [← h, ← hu]
                  have hne : args1.dtypes ≠ [] := by
                    intro hemp
                    rw [hemp] at hm
                    simp [listMax] at hm
                  have hmm : listMax (ExprList.dtypes (args1.map (_upcast_node m))) = some m := by
                    rw [dtypes_map_upcast]
                    apply listMax_all_eq
                    · intro x hx
                      rcases List.mem_map.mp hx with ⟨a, _, hax⟩
                      exact hax.symm
                    · intro hemp
                      exact hne (List.map_eq_nil_iff.mp hemp)
                  simp only [visit]
                  rw [visit_list_map_upcast m args1 ha1]
                  simp only []
                  unfold _upcast_nodes
                  rw [hmm]
                  simp only []
                  rw [map_upcast_idem, _update_node_nativeFuncCall_eq]

/-- Companion to `visit_idem` for lists of visited nodes. -/
theorem visit_list_idem : ∀ (es es1 : ExprList), visit_list es = some es1 → visit_list es1 = some es1
  | .nil, es1, h => by
      simp only [visit_list, Option.some.injEq] at h
      rw [← h]
      rfl
  | .cons x xs, es1, h => by
      simp only [visit_list] at h
      cases hx : visit x with
      | none => rw [hx] at h; simp at h
      | some x1 =>
          cases hxs : visit_list xs with
          | none => rw [hx, hxs] at h; simp at h
          | some xs1 =>
              rw [hx, hxs] at h
              simp only [Option.some.injEq] at h
              rw [← h]
              simp only [visit_list]
              rw [visit_idem x x1 hx, visit_list_idem xs xs1 hxs]

end

/-- Statement-level idempotence for the parallel-assignment visitor. -/
theorem visit_ParAssignStmt_idem (s s1 : Stmt) (h : visit_ParAssignStmt s = some s1) :
    visit_ParAssignStmt s1 = some s1 := by
  cases s with
  | parAssign l r =>
      simp only [visit_ParAssignStmt] at h
      cases hr : visit r with
      | none => rw [hr] at h; simp at h
      | some r1 =>
          rw [hr] at h
          simp only [_update_node_parAssign_eq, Option.some.injEq] at h
          rw [← h]
          simp only [visit_ParAssignStmt]
          rw [visit_fix_upcast l.dtype r1 (visit_idem r r1 hr)]
          simp only []
          rw [_upcast_node_of_dtype_eq _ _ (_upcast_node_dtype l.dtype r1),
            _update_node_parAssign_eq]

/-- Idempotence for the statement list of a stencil. -/
theorem visit_stmts_idem (ts ts1 : List Stmt) (h : visit_stmts ts = some ts1) :
    visit_stmts ts1 = some ts1 := by
  induction ts generalizing ts1 with
  | nil =>
      simp only [visit_stmts, Option.some.injEq] at h
      rw [← h]
      rfl
  | cons s ss ih =>
      simp only [visit_stmts] at h
      cases hs : visit_ParAssignStmt s with
      | none => rw [hs] at h; simp at h
      | some s1 =>
          cases hss : visit_stmts ss with
          | none => rw [hs, hss] at h; simp at h
          | some ss1 =>
              rw [hs, hss] at h
              simp only [Option.some.injEq] at h
              rw [← h]
              simp only [visit_stmts]
              rw [visit_ParAssignStmt_idem s s1 hs, ih ss1 hss]

/-! ## Zero-argument native calls -/

def ExprList.isNil : ExprList → Bool
  | .nil => true
  | .cons _ _ => false

mutual

/-- Whether an expression contains a `NativeFuncCall` node with zero
arguments anywhere. -/
def Expr.has_empty_call : Expr → Bool
  | .literal _ _ => false
  | .fieldAccess _ _ => false
  | .cast _ e => e.has_empty_call
  | .binaryOp _ _ l r => l.has_empty_call || r.has_empty_call
  | .ternaryOp _ c t f => c.has_empty_call || t.has_empty_call || f.has_empty_call
  | .nativeFuncCall _ _ args => args.isNil || args.any_empty_call

def ExprList.any_empty_call : ExprList → Bool
  | .nil => false
  | .cons e es => e.has_empty_call || es.any_empty_call

end

/-- Whether a statement contains a zero-argument `NativeFuncCall` (the
left-hand side is a field access and can hold no call). -/
def Stmt.has_empty_call : Stmt → Bool
  | .parAssign _ r => r.has_empty_call

mutual

/-- Visiting an expression containing a zero-argument native call raises:
the `max` over the empty dtype list has no value. -/
theorem visit_none_of_empty_call :
    ∀ e : Expr, e.has_empty_call = true → visit e = none
  | .cast d x, h => by
      simp only [Expr.has_empty_call] at h
      simp only [visit]
      rw [visit_none_of_empty_call x h]
  | .binaryOp d op l r, h => by
      simp only [Expr.has_empty_call, Bool.or_eq_true] at h
      simp only [visit]
      cases h with
      | inl hl => rw [visit_none_of_empty_call l hl]
      | inr hr =>
          rw [visit_none_of_empty_call r hr]
          cases visit l <;> rfl
  | .ternaryOp d c t f, h => by
      simp only [Expr.has_empty_call, Bool.or_eq_true] at h
      simp only [visit]
      rcases h with (hc | ht) | hf
      · rw [visit_none_of_empty_call c hc]
        cases visit t <;> cases visit f <;> rfl
      · rw [visit_none_of_empty_call t ht]
      · rw [visit_none_of_empty_call f hf]
        cases visit t <;> rfl
  | .nativeFuncCall d fn args, h => by
      simp only [Expr.has_empty_call, Bool.or_eq_true] at h
      simp only [visit]
      cases h with
      | inl hnil =>
          cases args with
          | nil => rfl
          | cons x xs => simp [ExprList.isNil] at hnil
      | inr hany =>
          rw [visit_list_none_of_empty_call args hany]

theorem visit_list_none_of_empty_call :
    ∀ es : ExprList, es.any_empty_call = true → visit_list es = none
  | .cons x xs, h => by
      simp only [ExprList.any_empty_call, Bool.or_eq_true] at h
      simp only [visit_list]
      cases h with
      | inl hx => rw [visit_none_of_empty_call x hx]
      | inr hxs =>
          rw [visit_list_none_of_empty_call xs hxs]
          cases visit x <;> rfl

end

/-! ## Claims about the upcasting pass -/

/-- C6: upcast idempotence — for every dtype-resolved IR tree, applying the
pass a second time inserts no further Cast nodes and changes nothing:
composing `upcast` with itself agrees with a single `upcast` (a raise on the
first pass propagates unchanged). -/
theorem upcast_idempotent (stencil : List Stmt) :
    (upcast stencil).bind upcast = upcast stencil := by
  cases h : upcast stencil with
  | none => rfl
  | some u =>
      simp only [Option.bind]
      exact visit_stmts_idem stencil u h

/-- C7: minimal insertion with structural sharing — for a binary node whose
operands have the same dtype, the pass wraps neither operand in a Cast, and
when visiting leaves both operands unchanged it returns the original node
itself (the no-copy branch of `_update_node`). -/
theorem upcast_binaryOp_minimal (d : DType) (op : String) (l r l1 r1 : Expr)
    (hdt : l.dtype = r.dtype) (hl : visit l = some l1) (hr : visit r = some r1) :
    visit (.binaryOp d op l r) = some (.binaryOp d op l1 r1) ∧
      (l1 = l → r1 = r → visit (.binaryOp d op l r) = some (.binaryOp d op l r)) := by
  have h1 : l1.dtype = l.dtype := visit_dtype l l1 hl
  have h2 : r1.dtype = r.dtype := visit_dtype r r1 hr
  have main : visit (.binaryOp d op l r) = some (.binaryOp d op l1 r1) := by
    simp only [visit]
    rw [hl, hr]
    simp only [_upcast_nodes_pair]
    have hm : dmax l1.dtype r1.dtype = l1.dtype := by
      rw [h1, h2, hdt]
      exact dmax_self _
    rw [hm, _upcast_node_of_dtype_eq l1.dtype l1 rfl,
      _upcast_node_of_dtype_eq l1.dtype r1 (by rw [h1, h2, hdt]),
      _update_node_binaryOp_eq]
  refine ⟨main, fun hle hre => ?_⟩
  rw [main, hle, hre]

/-- C8: assignment asymmetry — the parallel-assignment visitor never touches
the left-hand side, and when the right-hand dtype differs from the left-hand
dtype (wider included) it wraps the visited right-hand side in a Cast to the
left-hand dtype. -/
theorem upcast_parAssign_asym (l : FieldAcc) (r r1 : Expr) (hr : visit r = some r1)
    (hne : r.dtype ≠ l.dtype) :
    visit_ParAssignStmt (.parAssign l r) = some (.parAssign l (.cast l.dtype r1)) := by
  simp only [visit_ParAssignStmt]
  rw [hr]
  simp only []
  have h1 : r1.dtype = r.dtype := visit_dtype r r1 hr
  unfold _upcast_node
  rw [if_neg (by rw [h1]; exact hne), _update_node_parAssign_eq]

/-- C9: the pass is not total — a tree containing a `NativeFuncCall` with zero
arguments makes `upcast` raise (the promotion target is the max of an empty
dtype sequence), so no tree is returned. -/
theorem upcast_empty_call_raises (stencil : List Stmt)
    (h : stencil.any Stmt.has_empty_call = true) : upcast stencil = none := by
  induction stencil with
  | nil => simp at h
  | cons s ss ih =>
      simp only [List.any_cons, Bool.or_eq_true] at h
      show visit_stmts (s :: ss) = none
      simp only [visit_stmts]
      cases h with
      | inl hs =>
          have hS : visit_ParAssignStmt s = none := by
            cases s with
            | parAssign l r =>
                simp only [Stmt.has_empty_call] at hs
                simp only [visit_ParAssignStmt]
                rw [visit_none_of_empty_call r hs]
          rw [hS]
      | inr hss =>
          have hss2 : visit_stmts ss = none := ih hss
          rw [hss2]
          cases visit_ParAssignStmt s <;> rfl

/-- Witness for C7 at concrete operands of equal dtype. -/
theorem upcast_binaryOp_minimal_witness :
    visit (.binaryOp .int32 "+" (.literal .int32 "1") (.literal .int32 "2")) =
      some (.binaryOp .int32 "+" (.literal .int32 "1") (.literal .int32 "2")) :=
  (upcast_binaryOp_minimal .int32 "+" (.literal .int32 "1") (.literal .int32 "2")
    (.literal .int32 "1") (.literal .int32 "2") rfl rfl rfl).2 rfl rfl

/-- Witness for C8: left float32, right float64 — the right is wrapped in a
Cast to float32, the left is untouched. -/
theorem upcast_parAssign_asym_witness :
    visit_ParAssignStmt (.parAssign ⟨.float32, "out"⟩ (.literal .float64 "1.0")) =
      some (.parAssign ⟨.float32, "out"⟩ (.cast .float32 (.literal .float64 "1.0"))) :=
  upcast_parAssign_asym ⟨.float32, "out"⟩ (.literal .float64 "1.0")
    (.literal .float64 "1.0") rfl (by decide)

/-- Witness for C9 at a concrete one-statement stencil whose right-hand side
is a zero-argument native call. -/
theorem upcast_empty_call_raises_witness :
    upcast [.parAssign ⟨.float64, "o"⟩ (.nativeFuncCall .float64 "f" .nil)] = none :=
  upcast_empty_call_raises [.parAssign ⟨.float64, "o"⟩ (.nativeFuncCall .float64 "f" .nil)]
    (by decide)

/-! ## Lemmas about the build cache -/

theorem pyEq_self (a : PyVal) : pyEq a a = true := by
  simp [pyEq]

theorem dlookup_eq_none (ys : CacheDict) (k : String) (h : ∀ p ∈ ys, p.1 ≠ k) :
    dlookup ys k = none := by
  induction ys with
  | nil => rfl
  | cons p ps ih =>
      cases p with
      | mk k1 v =>
          simp only [dlookup]
          rw [ih (fun q hq => h q (by simp [hq]))]
          rw [if_neg (h (k1, v) (by simp))]

theorem dlookup_append_of_none (xs ys : CacheDict) (k : String)
    (h : dlookup ys k = none) : dlookup (xs ++ ys) k = dlookup xs k := by
  induction xs with
  | nil => simpa using h
  | cons p xs ih =>
      cases p with
      | mk k1 v =>
          simp only [List.cons_append, dlookup, List.append_eq]
          rw [ih]

theorem dlookup_std_backend (v1 v2 v3 v4 v5 : PyVal) :
    dlookup [("gt4py_version", v1), ("backend", v2), ("stencil_name", v3),
      ("stencil_version", v4), ("module_shash", v5)] "backend" = some v2 := by
  rfl

theorem dlookup_std_name (v1 v2 v3 v4 v5 : PyVal) :
    dlookup [("gt4py_version", v1), ("backend", v2), ("stencil_name", v3),
      ("stencil_version", v4), ("module_shash", v5)] "stencil_name" = some v3 := by
  rfl

theorem dlookup_std_version (v1 v2 v3 v4 v5 : PyVal) :
    dlookup [("gt4py_version", v1), ("backend", v2), ("stencil_name", v3),
      ("stencil_version", v4), ("module_shash", v5)] "stencil_version" = some v4 := by
  rfl

theorem dlookup_std_shash (v1 v2 v3 v4 v5 : PyVal) :
    dlookup [("gt4py_version", v1), ("backend", v2), ("stencil_name", v3),
      ("stencil_version", v4), ("module_shash", v5)] "module_shash" = some v5 := by
  rfl

/-- Validation only reads the four checked keys of the record (and the module
file): records agreeing on those lookups validate identically. -/
theorem validate_cache_info_congr (fs : FileSys) (b : String) (sid : StencilID)
    (c1 c2 : CacheDict)
    (h1 : dlookup c1 "backend" = dlookup c2 "backend")
    (h2 : dlookup c1 "stencil_name" = dlookup c2 "stencil_name")
    (h3 : dlookup c1 "stencil_version" = dlookup c2 "stencil_version")
    (h4 : dlookup c1 "module_shash" = dlookup c2 "module_shash") :
    validate_cache_info fs b sid c1 = validate_cache_info fs b sid c2 := by
  unfold validate_cache_info
  simp only [h1, h2, h3, h4]

/-- Removal of one key from a record, used to state that a field is ignored. -/
def remove_key (d : CacheDict) (k : String) : CacheDict :=
  d.filter (fun p => p.1 != k)

theorem dlookup_remove_key (d : CacheDict) (kr k : String) (h : k ≠ kr) :
    dlookup (remove_key d kr) k = dlookup d k := by
  induction d with
  | nil => rfl
  | cons p ps ih =>
      cases p with
      | mk k1 v =>
          by_cases h1 : k1 = kr
          · have hb : (k1 != kr) = false := by simp [h1]
            have hfilter : remove_key ((k1, v) :: ps) kr = remove_key ps kr := by
              simp [remove_key, List.filter_cons, hb]
            rw [hfilter, ih]
            simp only [dlookup]
            cases dlookup ps k with
            | none =>
                rw [if_neg (fun hk => h (by rw [← hk, h1]))]
            | some w => rfl
          · have hb : (k1 != kr) = true := by simp [bne_iff_ne]; exact h1
            have hfilter : remove_key ((k1, v) :: ps) kr = (k1, v) :: remove_key ps kr := by
              simp [remove_key, List.filter_cons, hb]
            rw [hfilter]
            simp only [dlookup]
            rw [ih]

/-! ## Claims about the build cache -/

/-- C1: `validate_cache_info` returns true exactly when the module file is
readable and the four record fields equal the live backend id, qualified name,
version and recomputed content hash; an unreadable module file, a missing
field, or a value of the wrong type makes it false instead of raising (a
raise is impossible: the function is total into booleans). -/
theorem validate_cache_info_spec (fs : FileSys) (backend_id : String) (sid : StencilID)
    (ci : CacheDict) :
    validate_cache_info fs backend_id sid ci = true ↔
      ∃ source, fs.textFiles (get_stencil_module_path backend_id sid) = some source ∧
        dlookup ci "backend" = some (PyVal.str backend_id) ∧
        dlookup ci "stencil_name" = some (PyVal.str sid.qualified_name) ∧
        dlookup ci "stencil_version" = some (PyVal.str sid.version) ∧
        dlookup ci "module_shash" = some (PyVal.int (shash source)) := by
  unfold validate_cache_info
  cases hsrc : fs.textFiles (get_stencil_module_path backend_id sid) with
  | none => simp [hsrc]
  | some source =>
      simp only [hsrc, Option.some.injEq]
      cases hb : dlookup ci "backend" with
      | none => simp
      | some bv =>
          by_cases hbv : bv = PyVal.str backend_id
          · subst hbv
            simp only [pyEq_self, if_true]
            cases hn : dlookup ci "stencil_name" with
            | none => simp
            | some nv =>
                by_cases hnv : nv = PyVal.str sid.qualified_name
                · subst hnv
                  simp only [pyEq_self, if_true]
                  cases hv : dlookup ci "stencil_version" with
                  | none => simp
                  | some vv =>
                      by_cases hvv : vv = PyVal.str sid.version
                      · subst hvv
                        simp only [pyEq_self, if_true]
                        cases hh : dlookup ci "module_shash" with
                        | none => simp
                        | some hv2 =>
                            by_cases hhv : hv2 = PyVal.int (shash source)
                            · subst hhv
                              simp [pyEq_self]
                            · simp only [pyEq]
                              simp [hhv]
                      · have : pyEq vv (PyVal.str sid.version) = false := by
                          simp [pyEq, hvv]
                        simp [this, hvv]
                · have : pyEq nv (PyVal.str sid.qualified_name) = false := by
                    simp [pyEq, hnv]
                  simp [this, hnv]
          · have : pyEq bv (PyVal.str backend_id) = false := by
              simp [pyEq, hbv]
            simp [this, hbv]

/-- C4: `check_cache` never raises and returns false for every malformed state
of the metadata file: missing or unreadable (`absent`), empty, truncated or
undeserializable (`corrupt`), or deserializing to a non-mapping (`nonDict`).
Totality of the embedding (a `Bool`, not an `Option Bool`) is the no-throw
property: the try block catches every exception of the body. -/
theorem check_cache_no_throw (fs : FileSys) (b : String) (sid : StencilID)
    (h : fs.infoFiles (get_cache_info_path b sid) = MetaFile.absent ∨
      fs.infoFiles (get_cache_info_path b sid) = MetaFile.corrupt ∨
      fs.infoFiles (get_cache_info_path b sid) = MetaFile.nonDict) :
    check_cache fs b sid = false := by
  unfold check_cache
  rcases h with h | h | h <;> rw [h]

/-- C5: exceptions during `update_cache` propagate — an unreadable module file
(the read in `generate_cache_info`) or a failing metadata write makes
`update_cache` raise (return `none`) instead of returning silently. -/
theorem update_cache_propagates (fs : FileSys) (b : String) (sid : StencilID)
    (extra : CacheDict)
    (h : fs.textFiles (get_stencil_module_path b sid) = none ∨ fs.writeFails = true) :
    update_cache fs b sid extra = none := by
  unfold update_cache generate_cache_info
  rcases h with h | h
  · rw [h]
  · cases hsrc : fs.textFiles (get_stencil_module_path b sid) with
    | none => rfl
    | some s =>
        simp only []
        rw [h]
        simp

/-- C10: the outcome of `validate_cache_info` is independent of the
`gt4py_version` field — removing it or overriding it with any value leaves the
validation result unchanged, because only the four checked keys are read. -/
theorem validate_ignores_gt4py_version (fs : FileSys) (b : String) (sid : StencilID)
    (ci : CacheDict) (v : PyVal) :
    validate_cache_info fs b sid (remove_key ci "gt4py_version") =
        validate_cache_info fs b sid ci ∧
      validate_cache_info fs b sid (ci ++ [("gt4py_version", v)]) =
        validate_cache_info fs b sid ci := by
  constructor
  · apply validate_cache_info_congr <;>
      exact dlookup_remove_key ci "gt4py_version" _ (by decide)
  · apply validate_cache_info_congr <;>
      exact dlookup_append_of_none ci [("gt4py_version", v)] _ rfl

/-- Overwriting one text file (the tampering step: the module file is
rewritten by an external writer). -/
def write_text (fs : FileSys) (p s : String) : FileSys :=
  { fs with textFiles := fun q => if q = p then some s else fs.textFiles q }

/-- A concrete stencil identity for witnesses and counterexamples. -/
def sidW : StencilID :=
  { qualified_name := "pkg.mod.stencil", version := "v1" }

/-- A concrete file system holding one module file with source text "a". -/
def fsW : FileSys :=
  { textFiles := fun p => if p = get_stencil_module_path "b" sidW then some "a" else none,
    infoFiles := fun _ => MetaFile.absent,
    writeFails := false }

/-- A concrete file system with no readable files at all. -/
def fsEmpty : FileSys :=
  { textFiles := fun _ => none,
    infoFiles := fun _ => MetaFile.absent,
    writeFails := false }

/-- C2 counterexample: round-trip fails for an arbitrary extra-info mapping —
an extra binding of the reserved key `module_shash` is merged after the
standard fields, shadows the freshly computed hash, and makes the immediately
following `check_cache` return false although the module file never changed. -/
theorem update_then_check_shadow_cex :
    (update_cache fsW "b" sidW [("module_shash", PyVal.int 0)]).map
      (fun f => check_cache f "b" sidW) = some false := by
  rfl

/-- C2 as amended: the round-trip holds for every extra-info mapping that does
not rebind one of the four validated keys — after a successful
`update_cache`, with the module file content unchanged (the update leaves
text files untouched), `check_cache` returns true. -/
theorem update_then_check (fs : FileSys) (b : String) (sid : StencilID) (extra : CacheDict)
    (fs1 : FileSys)
    (hextra : ∀ p ∈ extra, p.1 ≠ "backend" ∧ p.1 ≠ "stencil_name" ∧
      p.1 ≠ "stencil_version" ∧ p.1 ≠ "module_shash")
    (hup : update_cache fs b sid extra = some fs1) :
    check_cache fs1 b sid = true := by
  unfold update_cache generate_cache_info at hup
  cases hsrc : fs.textFiles (get_stencil_module_path b sid) with
  | none => rw [hsrc] at hup; simp at hup
  | some source =>
      rw [hsrc] at hup
      simp only [] at hup
      cases hw : fs.writeFails with
      | true => rw [hw] at hup; simp at hup
      | false =>
          rw [hw] at hup
          simp only [Bool.false_eq_true, if_false, Option.some.injEq] at hup
          subst hup
          unfold check_cache
          simp only []
          simp only [reduceIte]
          unfold validate_cache_info
          simp only []
          rw [hsrc]
          have hb : dlookup ([("gt4py_version", PyVal.str gt_version),
              ("backend", PyVal.str b), ("stencil_name", PyVal.str sid.qualified_name),
              ("stencil_version", PyVal.str sid.version),
              ("module_shash", PyVal.int (shash source))] ++ extra) "backend" =
              some (PyVal.str b) := by
            rw [dlookup_append_of_none _ _ _
              (dlookup_eq_none extra _ (fun p hp => (hextra p hp).1))]
            exact dlookup_std_backend _ _ _ _ _
          have hn : dlookup ([("gt4py_version", PyVal.str gt_version),
              ("backend", PyVal.str b), ("stencil_name", PyVal.str sid.qualified_name),
              ("stencil_version", PyVal.str sid.version),
              ("module_shash", PyVal.int (shash source))] ++ extra) "stencil_name" =
              some (PyVal.str sid.qualified_name) := by
            rw [dlookup_append_of_none _ _ _
              (dlookup_eq_none extra _ (fun p hp => (hextra p hp).2.1))]
            exact dlookup_std_name _ _ _ _ _
          have hv : dlookup ([("gt4py_version", PyVal.str gt_version),
              ("backend", PyVal.str b), ("stencil_name", PyVal.str sid.qualified_name),
              ("stencil_version", PyVal.str sid.version),
              ("module_shash", PyVal.int (shash source))] ++ extra) "stencil_version" =
              some (PyVal.str sid.version) := by
            rw [dlookup_append_of_none _ _ _
              (dlookup_eq_none extra _ (fun p hp => (hextra p hp).2.2.1))]
            exact dlookup_std_version _ _ _ _ _
          have hh : dlookup ([("gt4py_version", PyVal.str gt_version),
              ("backend", PyVal.str b), ("stencil_name", PyVal.str sid.qualified_name),
              ("stencil_version", PyVal.str sid.version),
              ("module_shash", PyVal.int (shash source))] ++ extra) "module_shash" =
              some (PyVal.int (shash source)) := by
            rw [dlookup_append_of_none _ _ _
              (dlookup_eq_none extra _ (fun p hp => (hextra p hp).2.2.2))]
            exact dlookup_std_shash _ _ _ _ _
          simp only [hb, hn, hv, hh, pyEq_self, if_true]

/-- C3 counterexample: tamper detection fails for an arbitrary extra-info
mapping — an extra binding of `module_shash` carrying the hash of the tampered
content makes `check_cache` return true after the module file is modified,
even though the content hash changed. -/
theorem update_tamper_shadow_cex :
    shash "b2" ≠ shash "a" ∧
      (update_cache fsW "b" sidW [("module_shash", PyVal.int (shash "b2"))]).map
        (fun f => check_cache (write_text f (get_stencil_module_path "b" sidW) "b2")
          "b" sidW) = some true :=
  ⟨by decide, by rfl⟩

/-- C3 as amended: for every extra-info mapping that does not rebind one of
the four validated keys, if the module file content is changed after a
successful `update_cache` and its content hash changes, `check_cache` returns
false. -/
theorem update_tamper_check (fs : FileSys) (b : String) (sid : StencilID) (extra : CacheDict)
    (fs1 : FileSys) (S S2 : String)
    (hextra : ∀ p ∈ extra, p.1 ≠ "backend" ∧ p.1 ≠ "stencil_name" ∧
      p.1 ≠ "stencil_version" ∧ p.1 ≠ "module_shash")
    (hS : fs.textFiles (get_stencil_module_path b sid) = some S)
    (hup : update_cache fs b sid extra = some fs1)
    (hhash : shash S2 ≠ shash S) :
    check_cache (write_text fs1 (get_stencil_module_path b sid) S2) b sid = false := by
  unfold update_cache generate_cache_info at hup
  rw [hS] at hup
  simp only [] at hup
  cases hw : fs.writeFails with
  | true => rw [hw] at hup; simp at hup
  | false =>
      rw [hw] at hup
      simp only [Bool.false_eq_true, if_false, Option.some.injEq] at hup
      subst hup
      unfold check_cache write_text
      simp only []
      simp only [reduceIte]
      unfold validate_cache_info
      simp only []
      simp only [reduceIte]
      have hb : dlookup ([("gt4py_version", PyVal.str gt_version),
          ("backend", PyVal.str b), ("stencil_name", PyVal.str sid.qualified_name),
          ("stencil_version", PyVal.str sid.version),
          ("module_shash", PyVal.int (shash S))] ++ extra) "backend" =
          some (PyVal.str b) := by
        rw [dlookup_append_of_none _ _ _
          (dlookup_eq_none extra _ (fun p hp => (hextra p hp).1))]
        exact dlookup_std_backend _ _ _ _ _
      have hn : dlookup ([("gt4py_version", PyVal.str gt_version),
          ("backend", PyVal.str b), ("stencil_name", PyVal.str sid.qualified_name),
          ("stencil_version", PyVal.str sid.version),
          ("module_shash", PyVal.int (shash S))] ++ extra) "stencil_name" =
          some (PyVal.str sid.qualified_name) := by
        rw [dlookup_append_of_none _ _ _
          (dlookup_eq_none extra _ (fun p hp => (hextra p hp).2.1))]
        exact dlookup_std_name _ _ _ _ _
      have hv : dlookup ([("gt4py_version", PyVal.str gt_version),
          ("backend", PyVal.str b), ("stencil_name", PyVal.str sid.qualified_name),
          ("stencil_version", PyVal.str sid.version),
          ("module_shash", PyVal.int (shash S))] ++ extra) "stencil_version" =
          some (PyVal.str sid.version) := by
        rw [dlookup_append_of_none _ _ _
          (dlookup_eq_none extra _ (fun p hp => (hextra p hp).2.2.1))]
        exact dlookup_std_version _ _ _ _ _
      have hh : dlookup ([("gt4py_version", PyVal.str gt_version),
          ("backend", PyVal.str b), ("stencil_name", PyVal.str sid.qualified_name),
          ("stencil_version", PyVal.str sid.version),
          ("module_shash", PyVal.int (shash S))] ++ extra) "module_shash" =
          some (PyVal.int (shash S)) := by
        rw [dlookup_append_of_none _ _ _
          (dlookup_eq_none extra _ (fun p hp => (hextra p hp).2.2.2))]
        exact dlookup_std_shash _ _ _ _ _
      have hfin : pyEq (PyVal.int (shash S)) (PyVal.int (shash S2)) = false := by
        simp only [pyEq, PyVal.int.injEq, decide_eq_false_iff_not]
        intro hh2
        exact hhash (by exact_mod_cast hh2.symm)
      simp only [hb, hn, hv, hh, pyEq_self, if_true, hfin]

/-- The cache record written by the C2 witness update. -/
def ciW : CacheDict :=
  [("gt4py_version", PyVal.str gt_version), ("backend", PyVal.str "b"),
   ("stencil_name", PyVal.str sidW.qualified_name),
   ("stencil_version", PyVal.str sidW.version),
   ("module_shash", PyVal.int (shash "a")), ("debug_info", PyVal.int 1)]

/-- The file system after the C2 witness update. -/
def fsW1 : FileSys :=
  { fsW with
    infoFiles := fun p =>
      if p = get_cache_info_path "b" sidW then MetaFile.dictVal ciW else fsW.infoFiles p }

/-- Witness for the amended C2 at a concrete, reserved-free extra mapping. -/
theorem update_then_check_witness : check_cache fsW1 "b" sidW = true :=
  update_then_check fsW "b" sidW [("debug_info", PyVal.int 1)] fsW1 (by decide) rfl

/-- The cache record written by the C3 witness update (empty extra). -/
def ciW2 : CacheDict :=
  [("gt4py_version", PyVal.str gt_version), ("backend", PyVal.str "b"),
   ("stencil_name", PyVal.str sidW.qualified_name),
   ("stencil_version", PyVal.str sidW.version),
   ("module_shash", PyVal.int (shash "a"))]

/-- The file system after the C3 witness update. -/
def fsW2 : FileSys :=
  { fsW with
    infoFiles := fun p =>
      if p = get_cache_info_path "b" sidW then MetaFile.dictVal ciW2 else fsW.infoFiles p }

/-- Witness for the amended C3: after an update with empty extra, tampering
the module file from "a" to "b2" (different hash) makes the check fail. -/
theorem update_tamper_check_witness :
    check_cache (write_text fsW2 (get_stencil_module_path "b" sidW) "b2") "b" sidW = false :=
  update_tamper_check fsW "b" sidW [] fsW2 "a" "b2" (by simp) rfl rfl (by decide)

/-- Witness for C4 at a file system with a missing metadata file. -/
theorem check_cache_no_throw_witness : check_cache fsEmpty "b" sidW = false :=
  check_cache_no_throw fsEmpty "b" sidW (Or.inl rfl)

/-- Witness for C5 at a file system with a missing module file. -/
theorem update_cache_propagates_witness : update_cache fsEmpty "b" sidW [] = none :=
  update_cache_propagates fsEmpty "b" sidW [] (Or.inl rfl)
